import Mathlib

/-!
Verification of the shunt process supervisor (src/src/guts.rs) against its
natural-language specification.

The embedding is byte-level: Rust `String`s and raw output bytes are both
modelled as `List Nat` (their UTF-8 bytes).  Each Lean definition embeds the
correspondingly named Rust function from guts.rs; OS effects (tty detection,
spawn success, wait results, console write results) are passed in as explicit
parameters, and Rust panics (`unwrap`, array index out of bounds) are modelled
as explicit `none` / `panicked` outcomes.
-/

set_option autoImplicit false

namespace Shunt

/-- UTF-8 byte strings: Rust `String` and raw output bytes alike. -/
abbrev Bytes := List Nat

/-- The `AutoBool` enum (config.rs / shunt.rs): tty allocation policy. -/
inductive AutoBool where
  | auto
  | always
  | never
  deriving DecidableEq, Repr

/-- The five `termcolor::Color` values used by `pick_color` in guts.rs. -/
inductive Color where
  | green
  | red
  | cyan
  | magenta
  | yellow
  deriving DecidableEq, Repr

/-- termcolor `ColorSpec`, restricted to the only field guts.rs sets:
the foreground color (`ColorSpec::new()` leaves it `None`, `set_fg` sets it). -/
structure ColorSpec where
  fg : Option Color := none
  deriving DecidableEq, Repr

/-- guts.rs `make_color`: a fresh `ColorSpec` with the foreground set. -/
def make_color (c : Color) : ColorSpec := { fg := some c }

/-- The palette array local to `pick_color` in guts.rs (lines 189-195). -/
def colors : List Color := [.green, .red, .cyan, .magenta, .yellow]

/-- guts.rs `pick_color` (lines 188-199): `i` is the value fetched from the
`COLOR_CYCLE` counter (one fetch-and-add per call, starting at 0).  The code
evaluates `colors[i as usize]` with no bounds reduction; an out-of-range index
panics, modelled here as `none`. -/
def pick_color (i : Nat) : Option ColorSpec := (colors.get? i).map make_color

/-- guts.rs `CommandInfo`: display identity fixed at launch. -/
structure CommandInfo where
  name : Bytes
  color : Option ColorSpec

/-- One write-level action on the shared console (a termcolor
`StandardStreamLock`): a color change, a reset, or literal text. -/
inductive Ev where
  | setColor (c : ColorSpec)
  | reset
  | text (s : Bytes)
  deriving DecidableEq, Repr

/-- Whether a console action is a color-control action (as opposed to text). -/
def isColorEv : Ev → Bool
  | .setColor _ => true
  | .reset => true
  | .text _ => false

/-- guts.rs `colored_write` (lines 87-95): set the color when one is given,
write the text, and reset when a color was set.  The `unwrap`ed write errors
are modelled separately (see `colored_write_f`). -/
def colored_write (color : Option ColorSpec) (s : Bytes) : List Ev :=
  (match color with
   | some c => [Ev.setColor c]
   | none => []) ++
  [Ev.text s] ++
  (match color with
   | some _ => [Ev.reset]
   | none => [])

/-- guts.rs `prefix_write` (lines 97-101): under the console lock, write the
colored `"[name] "` prefix and then the line body plus newline.
`[` is byte 91, `]` is byte 93, space is 32, newline is 10. -/
def prefix_write (info : CommandInfo) (s : Bytes) : List Ev :=
  colored_write info.color ([91] ++ info.name ++ [93, 32]) ++ [Ev.text (s ++ [10])]

/-- Continuation byte test for the UTF-8 validation state machine. -/
def utf8Cont (b : Nat) : Bool := 128 ≤ b && b ≤ 191

/-- One step of the standard UTF-8 acceptance automaton (the validation
`BufRead::read_line` performs, rejecting overlong forms, surrogates and
values past U+10FFFF).  State 0 is the accepting boundary state. -/
def utf8Step (st b : Nat) : Option Nat :=
  match st with
  | 0 =>
    if b ≤ 127 then some 0
    else if 194 ≤ b && b ≤ 223 then some 1
    else if b = 224 then some 4
    else if (225 ≤ b && b ≤ 236) || b = 238 || b = 239 then some 3
    else if b = 237 then some 5
    else if b = 240 then some 6
    else if 241 ≤ b && b ≤ 243 then some 7
    else if b = 244 then some 8
    else none
  | 1 => if utf8Cont b then some 0 else none
  | 3 => if utf8Cont b then some 1 else none
  | 4 => if 160 ≤ b && b ≤ 191 then some 1 else none
  | 5 => if 128 ≤ b && b ≤ 159 then some 1 else none
  | 6 => if 144 ≤ b && b ≤ 191 then some 3 else none
  | 7 => if utf8Cont b then some 3 else none
  | 8 => if 128 ≤ b && b ≤ 143 then some 3 else none
  | _ => none

/-- Run the UTF-8 automaton over a byte sequence from the start state. -/
def utf8Run (l : Bytes) : Option Nat :=
  l.foldl (fun acc b => acc.bind fun st => utf8Step st b) (some 0)

/-- A byte sequence is valid UTF-8 iff the automaton accepts it ending on a
character boundary. -/
def utf8Valid (l : Bytes) : Bool :=
  match utf8Run l with
  | some 0 => true
  | _ => false

/-- Split a byte sequence at `\n` (byte 10) delimiters, as
`BufRead::read_until(b'\n')` consumes it: the first component is the list of
complete lines (delimiter excluded), the second the trailing bytes after the
last delimiter. -/
def splitData : Bytes → List Bytes × Bytes
  | [] => ([], [])
  | b :: rest =>
    let (ls, r) := splitData rest
    if b = 10 then ([] :: ls, r)
    else
      match ls with
      | [] => ([], b :: r)
      | l :: ls2 => ((b :: l) :: ls2, r)

/-- Drop one trailing `\r` (byte 13), as `BufRead::lines` does after popping
the `\n` of a complete line. -/
def stripCr (l : Bytes) : Bytes :=
  if l.getLast? = some 13 then l.dropLast else l

/-- A process output transport as `handle_output` observes it: the bytes the
reads deliver, then either clean end-of-file (`endErr = false`) or a read
error (`endErr = true`, as a pseudo-terminal reports its slave side closing). -/
structure ByteStream where
  data : Bytes
  endErr : Bool

/-- What `BufRead::lines` does with the bytes left after the last `\n` once
the stream ends.  Clean end-of-file yields them as a final line (checked for
UTF-8 validity); a read error makes `read_line` return `Err`, discarding the
buffered bytes, and `handle_output` then breaks with no write. -/
def remainderEvents (info : CommandInfo) (rem : Bytes) (endErr : Bool) : List Ev :=
  if rem = [] then []
  else if endErr then []
  else if utf8Valid rem then prefix_write info rem
  else []

/-- The loop body of guts.rs `handle_output` (lines 28-37) over the already
split lines: each `Ok` line is written via `prefix_write`; the first `Err`
(invalid UTF-8, or the end-of-stream read error) breaks out of the loop.
The UTF-8 check applies to the raw buffered line (the trailing `\r`, being
ASCII, does not affect it); the written body has the `\r` stripped. -/
def emitLines (info : CommandInfo) : List Bytes → Bytes → Bool → List Ev
  | [], rem, endErr => remainderEvents info rem endErr
  | l :: ls, rem, endErr =>
    if utf8Valid l then prefix_write info (stripCr l) ++ emitLines info ls rem endErr
    else []

/-- guts.rs `handle_output` (lines 23-38): read the transport through
`BufReader::lines`, writing each delivered line with `prefix_write`, breaking
on the first read error. -/
def handle_output (info : CommandInfo) (s : ByteStream) : List Ev :=
  emitLines info (splitData s.data).1 (splitData s.data).2 s.endErr

/-- Modelled from the spec: the console writes it prescribes for one line,
`"[name] " + line + "\n"` with the process color applied to the `"[name] "`
prefix only and the color state reset before the uncolored body. -/
def specLine (info : CommandInfo) (line : Bytes) : List Ev :=
  match info.color with
  | some c =>
    [Ev.setColor c, Ev.text ([91] ++ info.name ++ [93, 32]), Ev.reset,
     Ev.text (line ++ [10])]
  | none =>
    [Ev.text ([91] ++ info.name ++ [93, 32]), Ev.text (line ++ [10])]

/-- Modelled from the spec: one console line per complete input line, in the
FIFO order the process emitted them, each formatted per `specLine`. -/
def specLineOutput (info : CommandInfo) (data : Bytes) : List Ev :=
  ((splitData data).1.map fun l => specLine info (stripCr l)).flatten

/-- The shared console stream `handle_output` writes to
(`StandardStream::stdout`, guts.rs line 24). -/
inductive StdStream where
  | stdout
  | stderr
  deriving DecidableEq, Repr

/-- guts.rs line 24: the output multiplexer writes to standard output. -/
def consoleStream : StdStream := StdStream.stdout

/-- The file descriptors produced by the transport choice in `start_command`
(guts.rs lines 120-136): either a pseudo-terminal pair or one anonymous pipe.
In both cases the read side becomes the supervisor's `tty_master` and the
write side is bound to the child twice, once as stdout and once as stderr. -/
inductive FdSpec where
  | ptyMaster
  | ptySlave
  | pipeRead
  | pipeWrite
  deriving DecidableEq, Repr

/-- The transport of one process: the supervisor-side read end and the
descriptors the child's stdout and stderr are bound to. -/
structure Transport where
  source : FdSpec
  childStdout : FdSpec
  childStderr : FdSpec
  deriving DecidableEq, Repr

/-- guts.rs `wrap_tty` resolution (lines 114-118): whether to allocate a
pseudo-terminal, given the command's `tty` mode and whether the supervisor's
own stdout is a terminal (`is_tty`, line 112). -/
def wrap_tty (mode : AutoBool) (isTty : Bool) : Bool :=
  match mode with
  | .auto => isTty
  | .always => true
  | .never => false

/-- guts.rs lines 120-136: `openpty` when wrapping in a tty, otherwise one
`pipe`; `(read_end, write_end)` then become `(tty, stdout = stderr)`. -/
def make_transport (wrap : Bool) : Transport :=
  if wrap then
    { source := .ptyMaster, childStdout := .ptySlave, childStderr := .ptySlave }
  else
    { source := .pipeRead, childStdout := .pipeWrite, childStderr := .pipeWrite }

/-- The `ShuntCommand` descriptor guts.rs launches.  Its declaration (crate
module `shunt`) is not among the source files; the fields are reconstructed
from their uses in guts.rs (`argv`, `workdir`, `tty`, and `env`, iterated as
pairs of a name and an `Option` value) and match the spec's Command
Descriptor: `env` maps a variable name to `some value` (set/override) or
`none` (remove). -/
structure ShuntCommand where
  argv : List Bytes
  workdir : Bytes
  tty : AutoBool
  env : List (Bytes × Option Bytes)
  deriving DecidableEq

/-- guts.rs lines 138-142: the overrides carrying a value. -/
def env_updates (env : List (Bytes × Option Bytes)) : List (Bytes × Bytes) :=
  env.filterMap fun kv => kv.2.map fun v => (kv.1, v)

/-- guts.rs lines 144-148: the override keys carrying no value. -/
def removed_env (env : List (Bytes × Option Bytes)) : List Bytes :=
  env.filterMap fun kv =>
    match kv.2 with
    | none => some kv.1
    | some _ => none

/-- First-match association lookup, as applying the `env_updates` map does. -/
def lookup_env : List (Bytes × Bytes) → Bytes → Option Bytes
  | [], _ => none
  | (k2, v) :: rest, k => if k2 = k then some v else lookup_env rest k

/-- The child's environment after guts.rs lines 162-166: `Command::envs`
applies every update over the inherited environment, then `env_remove` drops
every removed key. -/
def child_env (inherited : Bytes → Option Bytes) (env : List (Bytes × Option Bytes))
    (k : Bytes) : Option Bytes :=
  if k ∈ removed_env env then none
  else
    match lookup_env (env_updates env) k with
    | some v => some v
    | none => inherited k

/-- The launch error of guts.rs line 154: `command "<name>" was empty`.
(The other `context` message, spawn failure, is an OS effect outside this
model, in which `Command::spawn` succeeds.) -/
inductive StartErr where
  | emptyCommand (name : Bytes)
  deriving DecidableEq, Repr

/-- guts.rs `Handle` (lines 201-206) plus the spawn parameters the child was
started with: info and transport are the fields used by the supervisor; exe,
args, env and workdir record what `Command` was built with (lines 150-166). -/
structure Handle where
  info : CommandInfo
  transport : Transport
  exe : Bytes
  args : List Bytes
  env : Bytes → Option Bytes
  workdir : Bytes

/-- Outcome of one `start_command` call: a handle, the empty-command error,
or a panic (the out-of-range palette index in `pick_color`). -/
inductive StartResult where
  | ok (h : Handle)
  | err (e : StartErr)
  | panicked

/-- guts.rs `start_command` (lines 109-184).  `isTty` is the `isatty` probe
of the supervisor's stdout (line 112), `inherited` the inherited environment,
`ctr` the current value of the `COLOR_CYCLE` counter.  Returns the result and
the counter after the call (`pick_color` fetch-and-adds exactly when a color
is picked, i.e. when `is_tty` holds and the command reaches the `Handle`
construction). -/
def start_command (isTty : Bool) (inherited : Bytes → Option Bytes) (ctr : Nat)
    (name : Bytes) (cfg : ShuntCommand) : StartResult × Nat :=
  let transport := make_transport (wrap_tty cfg.tty isTty)
  match cfg.argv with
  | [] => (.err (.emptyCommand name), ctr)
  | exe :: rest =>
    let h : Option ColorSpec → Handle := fun color =>
      { info := { name := name, color := color }
        transport := transport
        exe := exe
        args := rest
        env := child_env inherited cfg.env
        workdir := cfg.workdir }
    if isTty then
      match pick_color ctr with
      | some c => (.ok (h (some c)), ctr + 1)
      | none => (.panicked, ctr + 1)
    else
      (.ok (h none), ctr)

/-- Whether a launch panicked (poisoning the eager `collect` in `go`). -/
def isPanicked : StartResult → Bool
  | .panicked => true
  | _ => false

/-- guts.rs lines 44-48: map `start_command` over the command list, threading
the `COLOR_CYCLE` counter in launch order. -/
def launchAll (isTty : Bool) (inherited : Bytes → Option Bytes) :
    Nat → List (Bytes × ShuntCommand) → List StartResult × Nat
  | ctr, [] => ([], ctr)
  | ctr, (n, c) :: rest =>
    let (r, ctr2) := start_command isTty inherited ctr n c
    let (rs, ctr3) := launchAll isTty inherited ctr2 rest
    (r :: rs, ctr3)

/-- Observable lifecycle events of one supervision run. -/
inductive GoEvent where
  | launchFailed (e : StartErr)
  | supervised (name : Bytes)
  | finished (name : Bytes)
  | waitError (name : Bytes)
  deriving DecidableEq, Repr

/-- The events one launch result contributes in the scope loop of guts.rs
lines 56-73: a failed launch is logged and skipped (line 61); a successful
one gets its wait and output tasks spawned, and `handle_wait` (lines 78-85)
then reports either the exit status or the wait error, per the `waitOk`
outcome the OS delivers for that process. -/
def resultEvents (waitOk : Bytes → Bool) : StartResult → List GoEvent
  | .err e => [.launchFailed e]
  | .panicked => []
  | .ok h =>
    .supervised h.info.name ::
      (if waitOk h.info.name then [.finished h.info.name] else [.waitError h.info.name])

/-- guts.rs `go` (lines 40-75).  `sigOk` is whether `Signals::new` succeeds
(line 41, the only fallible step `go` propagates with `?`); `waitOk` gives
each process's wait outcome.  `none` models a panic (a poisoned launch
aborts the eager `collect` before the scope runs); otherwise the result is
`Err` exactly when signal installation failed, and `Ok` with the run's
lifecycle events otherwise.  Between different processes the real event
order is thread-scheduling dependent; the list collects the events of the
run in launch order, and the theorems below only use membership. -/
def go (sigOk : Bool) (isTty : Bool) (waitOk : Bytes → Bool)
    (inherited : Bytes → Option Bytes) (cmds : List (Bytes × ShuntCommand)) :
    Option (Except Unit (List GoEvent)) :=
  if sigOk then
    let results := (launchAll isTty inherited 0 cmds).1
    if results.any isPanicked then none
    else some (.ok (results.flatMap (resultEvents waitOk)))
  else some (.error ())

/-- Outcome of one fallible console operation sequence (the `unwrap`s in
`colored_write` and `prefix_write`): either all attempted writes succeeded,
or the first failing one panicked the thread. -/
inductive WriteOutcome where
  | ok
  | panicked
  deriving DecidableEq, Repr

/-- guts.rs `colored_write` (lines 87-95) with its write results made
explicit: `set_color`, `write!` and `reset` each `unwrap` their result, so
the first failure panics; operations after a panic are not attempted, and
`set_color`/`reset` only run when a color is present. -/
def colored_write_f (setColorOk textOk resetOk : Bool) (color : Option ColorSpec) :
    WriteOutcome :=
  match color with
  | some _ =>
    if !setColorOk then .panicked
    else if !textOk then .panicked
    else if !resetOk then .panicked
    else .ok
  | none =>
    if !textOk then .panicked else .ok

/-- guts.rs `prefix_write` (lines 97-101) with its write results made
explicit: `colored_write` for the prefix, then a `writeln!` whose result is
also `unwrap`ed. -/
def prefix_write_f (setColorOk textOk resetOk bodyOk : Bool)
    (color : Option ColorSpec) : WriteOutcome :=
  match colored_write_f setColorOk textOk resetOk color with
  | .panicked => .panicked
  | .ok => if !bodyOk then .panicked else .ok

/-- Concrete display identity (name `n`, uncolored) for counterexamples. -/
def infoPlain : CommandInfo := { name := [110], color := none }

/-- Concrete display identity (name `n`, green prefix) for witnesses. -/
def infoGreen : CommandInfo := { name := [110], color := some (make_color .green) }

/-- Concrete display identity (name `p`, uncolored) for counterexamples. -/
def infoPipe : CommandInfo := { name := [112], color := none }

/-- A concrete inherited environment that is empty. -/
def inhW : Bytes → Option Bytes := fun _ => none

/-- A concrete wait oracle under which every wait succeeds. -/
def waitOkW : Bytes → Bool := fun _ => true

/-- Concrete descriptor with empty `argv` (invalid). -/
def cmdBad : ShuntCommand := { argv := [], workdir := [46], tty := .never, env := [] }

/-- Concrete descriptor with a one-word `argv`. -/
def cmdGood : ShuntCommand := { argv := [[116]], workdir := [46], tty := .never, env := [] }

/-- Concrete descriptor with non-empty `argv` and `tty = always`. -/
def cmdAlways : ShuntCommand := { argv := [[121]], workdir := [46], tty := .always, env := [] }

/-- Concrete two-command run: `b` has an empty `argv`, `g` a valid one. -/
def cmdsW : List (Bytes × ShuntCommand) := [([98], cmdBad), ([103], cmdGood)]

/-- The trace produced by launching `cmdsW` with no tty and clean waits. -/
def trW : List GoEvent :=
  [.launchFailed (.emptyCommand [98]), .supervised [103], .finished [103]]

/-- Concrete environment-override list: remove `h` (104), set `j` (106) to
`3` (51). -/
def envW : List (Bytes × Option Bytes) := [([104], none), ([106], some [51])]

/-- Concrete inherited environment: `h` (104) is `1` (49), `i` (105) is `2`
(50). -/
def inhEnvW : Bytes → Option Bytes :=
  fun k => if k = [104] then some [49] else if k = [105] then some [50] else none

/-- The source's per-line write sequence coincides with the spec's prescribed
line format: color on the prefix only, reset before the body. -/
theorem prefix_write_eq_specLine (info : CommandInfo) (s : Bytes) :
    prefix_write info s = specLine info s := by
  cases h : info.color <;> simp [prefix_write, colored_write, specLine, h]

/-- When every complete line is valid UTF-8, the multiplexer loop writes each
of them in order and then handles the trailing remainder. -/
theorem emitLines_all_valid (info : CommandInfo) (ls : List Bytes) (rem : Bytes)
    (endErr : Bool) (h : ∀ l ∈ ls, utf8Valid l = true) :
    emitLines info ls rem endErr =
      (ls.map fun l => specLine info (stripCr l)).flatten ++
        remainderEvents info rem endErr := by
  induction ls with
  | nil => simp [emitLines]
  | cons l ls ih =>
    have hl : utf8Valid l = true := h l (by simp)
    have hrest : ∀ x ∈ ls, utf8Valid x = true := fun x hx => h x (by simp [hx])
    simp [emitLines, hl, ih hrest, prefix_write_eq_specLine]

/-- C1 (amended): for every output byte stream whose complete lines are valid
UTF-8, `handle_output` writes to the shared console exactly one line per
complete input line, in the FIFO order the process emitted them, each
formatted as `"[name] " + line + newline` with the assigned color applied to
the prefix only and the color reset before the uncolored body, followed only
by the trailing-remainder handling. -/
theorem output_lines_fifo_format (info : CommandInfo) (data : Bytes) (endErr : Bool)
    (h : ∀ l ∈ (splitData data).1, utf8Valid l = true) :
    handle_output info { data := data, endErr := endErr } =
      specLineOutput info data ++ remainderEvents info (splitData data).2 endErr := by
  simpa [handle_output, specLineOutput] using
    emitLines_all_valid info (splitData data).1 (splitData data).2 endErr h

/-- C1 witness: a concrete colored stream `hi\n` is rendered as one green
prefixed line. -/
theorem output_lines_fifo_format_witness :
    handle_output infoGreen { data := [104, 105, 10], endErr := false } =
      specLineOutput infoGreen [104, 105, 10] ++
        remainderEvents infoGreen (splitData [104, 105, 10]).2 false :=
  output_lines_fifo_format infoGreen [104, 105, 10] false (by decide)

/-- C1 counterexample: the claim quantifies over every byte stream, but a
complete line that is not valid UTF-8 (here the lone byte 200 before the
newline) makes `BufRead::lines` yield `Err`, and `handle_output` breaks: the
console receives nothing although the stream has one complete line. -/
theorem output_invalid_utf8_dropped :
    handle_output infoPlain { data := [200, 10], endErr := false } = [] ∧
      specLineOutput infoPlain [200, 10] ≠ [] := by decide

/-- C2 (amended): a trailing unterminated chunk is flushed as one prefixed
line when the stream ends in clean end-of-file and the chunk (and the lines
before it) are valid UTF-8. -/
theorem trailing_chunk_clean_eof (info : CommandInfo) (data : Bytes)
    (hrem : (splitData data).2 ≠ [])
    (hlines : ∀ l ∈ (splitData data).1, utf8Valid l = true)
    (hremv : utf8Valid (splitData data).2 = true) :
    handle_output info { data := data, endErr := false } =
      specLineOutput info data ++ specLine info (splitData data).2 := by
  have heq := emitLines_all_valid info (splitData data).1 (splitData data).2 false hlines
  simp [handle_output, specLineOutput, heq, remainderEvents, hrem, hremv,
    prefix_write_eq_specLine]

/-- C2 witness: the unterminated chunk `hi` is flushed at clean end-of-file. -/
theorem trailing_chunk_clean_eof_witness :
    handle_output infoPlain { data := [104, 105], endErr := false } =
      specLineOutput infoPlain [104, 105] ++ specLine infoPlain (splitData [104, 105]).2 :=
  trailing_chunk_clean_eof infoPlain [104, 105] (by decide) (by decide) (by decide)

/-- C2 counterexample: when the stream's end is reported as a read error (as
a pseudo-terminal reports the slave side closing), `read_line` returns `Err`
and the buffered unterminated chunk `hi` is silently dropped: the loop breaks
having written nothing, although the claim requires the chunk to be delivered
as one prefixed line. -/
theorem trailing_chunk_err_dropped :
    handle_output infoPlain { data := [104, 105], endErr := true } = [] ∧
      specLine infoPlain [104, 105] ≠ [] := by decide

/-- C3: the sixth color assignment (counter value 5) evaluates `colors[5]` on
the five-element palette, which panics, while the claimed cyclic policy
prescribes `palette[5 mod 5]`, i.e. green.  The first five assignments agree
with the claim. -/
theorem color_cycle_sixth_panics :
    pick_color 5 = none ∧
      pick_color (5 % 5) = some (make_color Color.green) ∧
      (colors.get? (5 % 5)).map make_color = some (make_color Color.green) := by decide

/-- C4: a pseudo-terminal is allocated exactly when `wrap_tty` holds, where
`wrap_tty = (tty == Always) or (tty == Auto and supervisor_is_tty)`, and
`tty == Never` always yields `wrap_tty = false`. -/
theorem wrap_tty_resolution (mode : AutoBool) (t : Bool) :
    (wrap_tty mode t = true ↔ (mode = AutoBool.always ∨ (mode = AutoBool.auto ∧ t = true)))
    ∧ ((make_transport (wrap_tty mode t)).source = FdSpec.ptyMaster ↔ wrap_tty mode t = true)
    ∧ wrap_tty AutoBool.never t = false := by
  cases mode <;> cases t <;> decide

/-- C9 counterexample: a failing console write (here the prefix text write)
is `unwrap`ed, so `prefix_write` panics the writing thread instead of
containing the failure to that write. -/
theorem write_failure_panics :
    prefix_write_f true false true true (some (make_color Color.green)) =
      WriteOutcome.panicked := by decide

/-- C9 (amended): the multiplexer's write path completes without panicking
iff every console operation it attempts succeeds (`set_color` and `reset`
are attempted only when a color is assigned); the first failing operation
panics the thread via `unwrap`. -/
theorem write_outcome_iff_ops_ok (s t r b : Bool) (c : Option ColorSpec) :
    prefix_write_f s t r b c = WriteOutcome.ok ↔
      ((c.isSome = true → s = true ∧ r = true) ∧ t = true ∧ b = true) := by
  cases c <;> cases s <;> cases t <;> cases r <;> cases b <;>
    simp [prefix_write_f, colored_write_f]

/-- C10 counterexample: under pipe transport the stream ends in clean
end-of-file, yet a byte of child output (255, forming an invalid UTF-8 line)
is never delivered to the console: `handle_output` writes nothing for this
stream, contradicting the claim that every byte is delivered line-prefixed. -/
theorem pipe_invalid_byte_not_delivered :
    handle_output infoPipe { data := [255, 10], endErr := false } = [] := by decide

/-- C10 (amended): when `wrap_tty` is false, `start_command` creates one
anonymous pipe and binds the child's stdout and stderr to its single write
end, merging the two streams into one transport read by the supervisor; the
multiplexer writes its prefixed lines to the supervisor's standard output,
and every complete valid-UTF-8 line of the merged stream (plus the trailing
chunk handling at the pipe's clean end-of-file) is delivered there. -/
theorem merged_pipe_stdout_delivery (info : CommandInfo) (data : Bytes)
    (hlines : ∀ l ∈ (splitData data).1, utf8Valid l = true) :
    (make_transport false).childStdout = FdSpec.pipeWrite
    ∧ (make_transport false).childStderr = FdSpec.pipeWrite
    ∧ (make_transport false).source = FdSpec.pipeRead
    ∧ consoleStream = StdStream.stdout
    ∧ handle_output info { data := data, endErr := false } =
        specLineOutput info data ++ remainderEvents info (splitData data).2 false := by
  refine ⟨rfl, rfl, rfl, rfl, ?_⟩
  simpa [handle_output, specLineOutput] using
    emitLines_all_valid info (splitData data).1 (splitData data).2 false hlines

/-- Keys of an association list determine values once the keys are nodup. -/
theorem keys_nodup_snd_eq {α β : Type} :
    ∀ (l : List (α × β)) (a : α) (b c : β),
      (l.map Prod.fst).Nodup → (a, b) ∈ l → (a, c) ∈ l → b = c := by
  intro l
  induction l with
  | nil => intro a b c _ hb _; simp at hb
  | cons p t ih =>
    intro a b c hn hb hc
    simp only [List.map_cons, List.nodup_cons] at hn
    rcases List.mem_cons.mp hb with hb1 | hb2
    · rcases List.mem_cons.mp hc with hc1 | hc2
      · exact congrArg Prod.snd (hb1.trans hc1.symm)
      · exfalso
        apply hn.1
        have hmem : a ∈ List.map Prod.fst t := List.mem_map_of_mem Prod.fst hc2
        rwa [show a = p.1 from congrArg Prod.fst hb1] at hmem
    · rcases List.mem_cons.mp hc with hc1 | hc2
      · exfalso
        apply hn.1
        have hmem : a ∈ List.map Prod.fst t := List.mem_map_of_mem Prod.fst hb2
        rwa [show a = p.1 from congrArg Prod.fst hc1] at hmem
      · exact ih a b c hn.2 hb2 hc2

/-- Looking up a key that carries a value, under nodup keys, returns it. -/
theorem lookup_updates_some (env : List (Bytes × Option Bytes)) (k v : Bytes)
    (hn : (env.map Prod.fst).Nodup) (h : (k, some v) ∈ env) :
    lookup_env (env_updates env) k = some v := by
  induction env with
  | nil => simp at h
  | cons kv t ih =>
    obtain ⟨k2, v2⟩ := kv
    simp only [List.map_cons, List.nodup_cons] at hn
    rcases List.mem_cons.mp h with h1 | h2
    · injection h1 with hk hv
      subst hk
      subst hv
      simp [env_updates, List.filterMap_cons, lookup_env]
    · have hk2 : k2 ≠ k := by
        intro e
        subst e
        exact hn.1 (List.mem_map_of_mem Prod.fst h2)
      cases v2 with
      | none => simpa [env_updates, List.filterMap_cons] using ih hn.2 h2
      | some w =>
        simp only [env_updates, List.filterMap_cons] at ih ⊢
        simp [lookup_env, hk2]
        exact ih hn.2 h2

/-- Looking up a key absent from the overrides finds nothing. -/
theorem lookup_updates_none (env : List (Bytes × Option Bytes)) (k : Bytes)
    (h : k ∉ env.map Prod.fst) : lookup_env (env_updates env) k = none := by
  induction env with
  | nil => rfl
  | cons kv t ih =>
    obtain ⟨k2, v2⟩ := kv
    simp only [List.map_cons, List.mem_cons] at h
    push_neg at h
    obtain ⟨hk, ht⟩ := h
    cases v2 with
    | none => simpa [env_updates, List.filterMap_cons] using ih ht
    | some w =>
      simp only [env_updates, List.filterMap_cons] at ih ⊢
      simp [lookup_env, Ne.symm hk]
      exact ih ht

/-- C6: each env override key with a value is set/overridden in the child
environment, each key without a value is removed, and keys not mentioned are
inherited unchanged (keys are unique, as they come from a map). -/
theorem env_overrides_semantics (inh : Bytes → Option Bytes)
    (env : List (Bytes × Option Bytes)) (k : Bytes)
    (hnodup : (env.map Prod.fst).Nodup) :
    (∀ v, (k, some v) ∈ env → child_env inh env k = some v)
    ∧ ((k, none) ∈ env → child_env inh env k = none)
    ∧ (k ∉ env.map Prod.fst → child_env inh env k = inh k) := by
  refine ⟨?_, ?_, ?_⟩
  · intro v hv
    have hrem : k ∉ removed_env env := by
      intro hmem
      obtain ⟨⟨k2, v2⟩, hmem2, hf⟩ := List.mem_filterMap.mp hmem
      cases v2 with
      | some w => simp at hf
      | none =>
        have hk2 : k2 = k := by simpa using hf
        rw [hk2] at hmem2
        have := keys_nodup_snd_eq env k (some v) none hnodup hv hmem2
        simp at this
    simp [child_env, hrem, lookup_updates_some env k v hnodup hv]
  · intro hv
    have hrem : k ∈ removed_env env := List.mem_filterMap.mpr ⟨(k, none), hv, rfl⟩
    simp [child_env, hrem]
  · intro hk
    have hrem : k ∉ removed_env env := by
      intro hmem
      obtain ⟨⟨k2, v2⟩, hmem2, hf⟩ := List.mem_filterMap.mp hmem
      cases v2 with
      | some w => simp at hf
      | none =>
        have hk2 : k2 = k := by simpa using hf
        rw [hk2] at hmem2
        exact hk (List.mem_map_of_mem Prod.fst hmem2)
    simp [child_env, hrem, lookup_updates_none env k hk]

/-- C6 witness: on the concrete overrides, `h` is removed, `j` is set, and
the unmentioned `i` is inherited. -/
theorem env_overrides_semantics_witness :
    child_env inhEnvW envW [104] = none
    ∧ child_env inhEnvW envW [106] = some [51]
    ∧ child_env inhEnvW envW [105] = some [50] :=
  ⟨(env_overrides_semantics inhEnvW envW [104] (by decide)).2.1 (by decide),
   (env_overrides_semantics inhEnvW envW [106] (by decide)).1 [51] (by decide),
   (env_overrides_semantics inhEnvW envW [105] (by decide)).2.2 (by decide)⟩

/-- C7: `go` returns an error iff installing the signal handler fails; every
other run (launch failures, wait errors, and whatever children's exit
statuses the waits report) that returns at all returns success, and the
error is produced before any command is launched (the launch fold is only
reached on the success branch of the signal installation). -/
theorem go_error_iff_signals (sigOk isTty : Bool) (waitOk : Bytes → Bool)
    (inh : Bytes → Option Bytes) (cmds : List (Bytes × ShuntCommand)) :
    go sigOk isTty waitOk inh cmds = some (Except.error ()) ↔ sigOk = false := by
  cases sigOk
  · simp [go]
  · by_cases h : ((launchAll isTty inh 0 cmds).1.any isPanicked) = true <;> simp [go, h]

/-- The first five palette indices are in range. -/
theorem pick_color_isSome (ctr : Nat) (h : ctr < 5) : ∃ c, pick_color ctr = some c := by
  interval_cases ctr <;> exact ⟨_, rfl⟩

/-- C8: for a launch that completes (non-empty `argv`, in-range color
counter), the assigned color is present iff the supervisor's stdout is a
terminal, independently of the command's `tty` mode; when it is not a
terminal, the emitted write sequence contains no color operations, and
`tty = Always` still selects the pseudo-terminal transport. -/
theorem assigned_color_iff_tty (isTty : Bool) (inh : Bytes → Option Bytes) (ctr : Nat)
    (nm : Bytes) (cfg : ShuntCommand) (hargv : cfg.argv ≠ []) (hctr : ctr < 5) :
    ∃ h ctr2, start_command isTty inh ctr nm cfg = (StartResult.ok h, ctr2)
      ∧ h.info.color.isSome = isTty
      ∧ (isTty = false → ∀ line, (prefix_write h.info line).all (fun e => !isColorEv e) = true)
      ∧ (cfg.tty = AutoBool.always → h.transport.source = FdSpec.ptyMaster) := by
  obtain ⟨argv, wd, tty, env⟩ := cfg
  obtain ⟨e, rest, rfl⟩ : ∃ e rest, argv = e :: rest := by
    cases argv with
    | nil => exact absurd rfl hargv
    | cons e rest => exact ⟨e, rest, rfl⟩
  cases isTty with
  | false =>
    refine ⟨{ info := { name := nm, color := none },
              transport := make_transport (wrap_tty tty false),
              exe := e, args := rest,
              env := child_env inh env, workdir := wd }, ctr, rfl, rfl, ?_, ?_⟩
    · intro _ line
      simp [prefix_write, colored_write, isColorEv]
    · intro htty
      simp only at htty
      simp [htty, wrap_tty, make_transport]
  | true =>
    obtain ⟨c, hp⟩ := pick_color_isSome ctr hctr
    refine ⟨{ info := { name := nm, color := some c },
              transport := make_transport (wrap_tty tty true),
              exe := e, args := rest,
              env := child_env inh env, workdir := wd }, ctr + 1, ?_, rfl, ?_, ?_⟩
    · simp [start_command, hp]
    · intro hfalse
      exact absurd hfalse (by decide)
    · intro htty
      simp only at htty
      simp [htty, wrap_tty, make_transport]

/-- C8 witness: a concrete non-tty launch of an `always`-wrapped command gets
no color yet a pseudo-terminal transport. -/
theorem assigned_color_iff_tty_witness :
    ∃ h ctr2, start_command false inhW 0 [120] cmdAlways = (StartResult.ok h, ctr2)
      ∧ h.info.color.isSome = false
      ∧ (false = false → ∀ line, (prefix_write h.info line).all (fun e => !isColorEv e) = true)
      ∧ (cmdAlways.tty = AutoBool.always → h.transport.source = FdSpec.ptyMaster) :=
  assigned_color_iff_tty false inhW 0 [120] cmdAlways (by decide) (by decide)

/-- Unfolding of the launch fold on a cons cell. -/
theorem launchAll_cons (isTty : Bool) (inh : Bytes → Option Bytes) (ctr : Nat)
    (pn : Bytes) (pc : ShuntCommand) (t : List (Bytes × ShuntCommand)) :
    launchAll isTty inh ctr ((pn, pc) :: t) =
      ((start_command isTty inh ctr pn pc).1 ::
        (launchAll isTty inh (start_command isTty inh ctr pn pc).2 t).1,
       (launchAll isTty inh (start_command isTty inh ctr pn pc).2 t).2) := rfl

/-- Every listed command's launch result (at the counter value its turn saw)
appears among the collected results. -/
theorem launchAll_mem (isTty : Bool) (inh : Bytes → Option Bytes) :
    ∀ (cmds : List (Bytes × ShuntCommand)) (ctr : Nat) (n : Bytes) (c : ShuntCommand),
      (n, c) ∈ cmds →
      ∃ ctr2, (start_command isTty inh ctr2 n c).1 ∈ (launchAll isTty inh ctr cmds).1 := by
  intro cmds
  induction cmds with
  | nil => intro ctr n c h; simp at h
  | cons p t ih =>
    intro ctr n c h
    obtain ⟨pn, pc⟩ := p
    rcases List.mem_cons.mp h with h1 | h2
    · injection h1 with hn hc
      subst hn
      subst hc
      refine ⟨ctr, ?_⟩
      rw [launchAll_cons]
      exact List.mem_cons_self _ _
    · obtain ⟨ctr2, hm⟩ := ih (start_command isTty inh ctr pn pc).2 n c h2
      refine ⟨ctr2, ?_⟩
      rw [launchAll_cons]
      exact List.mem_cons_of_mem _ hm

/-- Conversely, every collected result is the launch result of some listed
command at some counter value. -/
theorem launchAll_result_mem (isTty : Bool) (inh : Bytes → Option Bytes) :
    ∀ (cmds : List (Bytes × ShuntCommand)) (ctr : Nat) (r : StartResult),
      r ∈ (launchAll isTty inh ctr cmds).1 →
      ∃ n c ctr2, (n, c) ∈ cmds ∧ r = (start_command isTty inh ctr2 n c).1 := by
  intro cmds
  induction cmds with
  | nil => intro ctr r h; simp [launchAll] at h
  | cons p t ih =>
    intro ctr r h
    obtain ⟨pn, pc⟩ := p
    rw [launchAll_cons] at h
    rcases List.mem_cons.mp h with h1 | h2
    · exact ⟨pn, pc, ctr, List.mem_cons_self _ _, h1⟩
    · obtain ⟨n, c, ctr2, hm, hr⟩ := ih _ r h2
      exact ⟨n, c, ctr2, List.mem_cons_of_mem _ hm, hr⟩

/-- Launching an empty `argv` yields the empty-command error, naming the
command, and does not advance the color counter. -/
theorem start_command_empty (isTty : Bool) (inh : Bytes → Option Bytes) (ctr : Nat)
    (n : Bytes) (c : ShuntCommand) (h : c.argv = []) :
    start_command isTty inh ctr n c = (.err (.emptyCommand n), ctr) := by
  obtain ⟨argv, wd, tty, env⟩ := c
  have h2 : argv = [] := h
  subst h2
  rfl

/-- Launching a non-empty `argv` either panics (the color-palette index bug)
or produces a handle carrying the command's name. -/
theorem start_command_nonempty (isTty : Bool) (inh : Bytes → Option Bytes) (ctr : Nat)
    (n : Bytes) (c : ShuntCommand) (h : c.argv ≠ []) :
    (start_command isTty inh ctr n c).1 = .panicked ∨
      ∃ hd, (start_command isTty inh ctr n c).1 = .ok hd ∧ hd.info.name = n := by
  obtain ⟨argv, wd, tty, env⟩ := c
  obtain ⟨e, rest, rfl⟩ : ∃ e rest, argv = e :: rest := by
    cases argv with
    | nil => exact absurd rfl h
    | cons e rest => exact ⟨e, rest, rfl⟩
  cases isTty with
  | false => exact Or.inr ⟨_, rfl, rfl⟩
  | true =>
    cases hp : pick_color ctr with
    | none =>
      left
      simp [start_command, hp]
    | some cc =>
      right
      refine ⟨{ info := { name := n, color := some cc },
                transport := make_transport (wrap_tty tty true),
                exe := e, args := rest,
                env := child_env inh env, workdir := wd }, ?_, rfl⟩
      simp [start_command, hp]

/-- A launch that produced a handle had a non-empty `argv`, and the handle
carries the command's name. -/
theorem start_command_fst_ok (isTty : Bool) (inh : Bytes → Option Bytes) (ctr : Nat)
    (n : Bytes) (c : ShuntCommand) (hd : Handle)
    (h : (start_command isTty inh ctr n c).1 = .ok hd) :
    hd.info.name = n ∧ c.argv ≠ [] := by
  obtain ⟨argv, wd, tty, env⟩ := c
  cases argv with
  | nil =>
    exact absurd h (by simp [start_command])
  | cons e rest =>
    refine ⟨?_, by simp⟩
    cases isTty with
    | false =>
      injection h with h2
      rw [← h2]
    | true =>
      cases hp : pick_color ctr with
      | none =>
        rw [show (start_command true inh ctr n ⟨e :: rest, wd, tty, env⟩).1 = .panicked
          from by simp [start_command, hp]] at h
        exact StartResult.noConfusion h
      | some cc =>
        simp only [start_command, hp] at h
        injection h with h2
        rw [← h2]

/-- Unfolding of `go` on the success branch of signal installation. -/
theorem go_true_eq (isTty : Bool) (waitOk : Bytes → Bool) (inh : Bytes → Option Bytes)
    (cmds : List (Bytes × ShuntCommand)) :
    go true isTty waitOk inh cmds =
      (if ((launchAll isTty inh 0 cmds).1.any isPanicked) = true then none
       else some (.ok ((launchAll isTty inh 0 cmds).1.flatMap (resultEvents waitOk)))) := rfl

/-- C5: in a run that returns a trace, a command with empty `argv` yields the
logged empty-command error naming it and is never supervised, while every
sibling command with non-empty `argv` is supervised and has its wait outcome
(exit report or wait error) reported.  Names are unique, as the commands come
from a map. -/
theorem empty_argv_isolated (isTty : Bool) (waitOk : Bytes → Bool)
    (inh : Bytes → Option Bytes) (cmds : List (Bytes × ShuntCommand)) (tr : List GoEvent)
    (hnodup : (cmds.map Prod.fst).Nodup)
    (hgo : go true isTty waitOk inh cmds = some (Except.ok tr)) :
    ∀ n c, (n, c) ∈ cmds →
      (c.argv = [] →
        GoEvent.launchFailed (StartErr.emptyCommand n) ∈ tr ∧ GoEvent.supervised n ∉ tr)
      ∧ (c.argv ≠ [] →
        GoEvent.supervised n ∈ tr ∧
          (GoEvent.finished n ∈ tr ∨ GoEvent.waitError n ∈ tr)) := by
  rw [go_true_eq] at hgo
  by_cases hp : ((launchAll isTty inh 0 cmds).1.any isPanicked) = true
  · rw [if_pos hp] at hgo
    exact Option.noConfusion hgo
  · rw [if_neg hp] at hgo
    simp only [Option.some.injEq, Except.ok.injEq] at hgo
    subst hgo
    intro n c hm
    constructor
    · intro hempty
      constructor
      · obtain ⟨ctr2, hmem⟩ := launchAll_mem isTty inh cmds 0 n c hm
        rw [start_command_empty isTty inh ctr2 n c hempty] at hmem
        exact List.mem_flatMap.mpr ⟨.err (.emptyCommand n), hmem, by simp [resultEvents]⟩
      · intro hsup
        obtain ⟨r, hr, hev⟩ := List.mem_flatMap.mp hsup
        obtain ⟨n2, c2, ctr2, hm2, hreq⟩ := launchAll_result_mem isTty inh cmds 0 r hr
        cases r with
        | err e => simp [resultEvents] at hev
        | panicked => simp [resultEvents] at hev
        | ok hd =>
          have hname : hd.info.name = n := by
            rcases List.mem_cons.mp hev with h1 | h2
            · injection h1 with h3
              exact h3.symm
            · cases hw : waitOk hd.info.name <;> simp [resultEvents, hw] at h2
          have hinv := start_command_fst_ok isTty inh ctr2 n2 c2 hd hreq.symm
          have hn2 : n2 = n := by rw [← hinv.1, hname]
          subst hn2
          have hceq : c2 = c := keys_nodup_snd_eq cmds n2 c2 c hnodup hm2 hm
          exact hinv.2 (by rw [hceq]; exact hempty)
    · intro hne
      obtain ⟨ctr2, hmem⟩ := launchAll_mem isTty inh cmds 0 n c hm
      rcases start_command_nonempty isTty inh ctr2 n c hne with hpan | ⟨hd, hok, hname⟩
      · exfalso
        rw [hpan] at hmem
        exact hp (List.any_eq_true.mpr ⟨.panicked, hmem, rfl⟩)
      · rw [hok] at hmem
        refine ⟨List.mem_flatMap.mpr ⟨.ok hd, hmem, by simp [resultEvents, hname]⟩, ?_⟩
        cases hw : waitOk n with
        | true =>
          left
          exact List.mem_flatMap.mpr ⟨.ok hd, hmem, by simp [resultEvents, hname, hw]⟩
        | false =>
          right
          exact List.mem_flatMap.mpr ⟨.ok hd, hmem, by simp [resultEvents, hname, hw]⟩

/-- C5 witness: in the concrete two-command run, the empty command `b` is
logged as failed and never supervised, and the sibling `g` is supervised
with its exit reported. -/
theorem empty_argv_isolated_witness :
    (GoEvent.launchFailed (StartErr.emptyCommand [98]) ∈ trW ∧ GoEvent.supervised [98] ∉ trW)
    ∧ (GoEvent.supervised [103] ∈ trW ∧
        (GoEvent.finished [103] ∈ trW ∨ GoEvent.waitError [103] ∈ trW)) := by
  have h := empty_argv_isolated false waitOkW inhW cmdsW trW (by decide) rfl
  exact ⟨(h [98] cmdBad (by decide)).1 rfl, (h [103] cmdGood (by decide)).2 (by decide)⟩

/-- C10 witness: a concrete merged stream `hi\n` over the pipe transport is
delivered prefixed on standard output. -/
theorem merged_pipe_stdout_delivery_witness :
    (make_transport false).childStdout = FdSpec.pipeWrite
    ∧ (make_transport false).childStderr = FdSpec.pipeWrite
    ∧ (make_transport false).source = FdSpec.pipeRead
    ∧ consoleStream = StdStream.stdout
    ∧ handle_output infoPipe { data := [104, 105, 10], endErr := false } =
        specLineOutput infoPipe [104, 105, 10] ++
          remainderEvents infoPipe (splitData [104, 105, 10]).2 false :=
  merged_pipe_stdout_delivery infoPipe [104, 105, 10] (by decide)

end Shunt
